import Mathlib

/-!
Verification of the curation pipeline in `src/main.py` (daily news summarizer).

Python strings are modelled as `List Char` (`Str` below); each helper mirrors
the exact Python string operation used by the source.  `datetime` values are
modelled at two levels.  The value model uses `Nat` with `datetime.min` as
`0` and an opaque parse parameter `parseIso : Str → Option Nat` standing for
`datetime.fromisoformat` composed with the source's `replace("Z", "+00:00")`
(`none` = the `except` branch), so every theorem quantifying over it holds
for every possible parse function.  The timezone-faithful model (`PyDT`)
additionally tracks Python's aware/naive flag — `fromisoformat` returns an
aware datetime exactly when the string carries an offset — under which
comparing mixed kinds raises `TypeError`, so the sort there is a partial
function returning `none` on mixed pools; the two models are related by a
proved equivalence on uniform pools.  Python's `sorted` (a stable sort) is
modelled by stable insertion sorts (stability proved below); a stable sort
by a total preorder is unique, so they agree with `sorted` wherever it
returns.
-/

/-- Python strings, modelled as their list of characters. -/
abbrev Str := List Char

/-- The single-quote character (used by the HTML the renderer emits). -/
def squote : Char := Char.ofNat 39

/-- Python `s.lower()` (ASCII case folding, which covers the source's data). -/
def pyLower (t : Str) : Str := t.map Char.toLower

/-- Python `s.upper()`. -/
def pyUpper (t : Str) : Str := t.map Char.toUpper

/-- Python `s.strip()`: drop whitespace from both ends. -/
def pyStrip (t : Str) : Str :=
  ((t.dropWhile Char.isWhitespace).reverse.dropWhile Char.isWhitespace).reverse

/-- Python `s.split(",")`: split on every comma; `"".split(",") == [""]`. -/
def splitComma : Str → List Str
  | [] => [[]]
  | c :: cs =>
    if c = ',' then [] :: splitComma cs
    else
      match splitComma cs with
      | [] => [[c]]
      | t :: ts => (c :: t) :: ts

/-- Python `raw.replace("\n", ",")` (single-character needle, so a map). -/
def replaceNl (t : Str) : Str := t.map (fun c => if c = '\n' then ',' else c)

/-- Python `val.replace("Z", "+00:00")` from `_to_dt` (src/main.py line 143). -/
def replaceZ : Str → Str
  | [] => []
  | c :: cs =>
    if c = 'Z' then '+' :: '0' :: '0' :: ':' :: '0' :: '0' :: replaceZ cs
    else c :: replaceZ cs

/-- Python `tok.isdigit()` followed by `int(tok)` : `some` exactly on non-empty
all-digit tokens (ASCII digits, which covers both functions' common domain). -/
def pyParseDigits (t : Str) : Option Nat :=
  if !t.isEmpty && t.all Char.isDigit then
    some (t.foldl (fun n c => 10 * n + (c.toNat - 48)) 0)
  else none

/-- Python `needle in hay` on strings: substring containment. -/
def strContains (hay needle : Str) : Bool := decide (needle <:+: hay)

/-- Python `s or default` for a string drawn from `dict.get` (absent key or
empty string are both falsy). -/
def pyOrD (x : Option Str) (d : Str) : Str :=
  match x with
  | none => d
  | some s => if s = [] then d else s

/-- Python `s or default` for a string that is always present. -/
def strOr (s d : Str) : Str := if s = [] then d else s

/-- The normalized article record produced by the source adapters
(src/main.py lines 43-49 and 90-98).  `url` and `published` can be absent
(`None` in the NewsAPI JSON); the other fields are always strings. -/
structure Article where
  title : Str
  content : Str
  url : Option Str
  source : Str
  published : Option Str
deriving DecidableEq

/-- `_to_dt` (src/main.py lines 137-145): the sort key of `summarize_news`.
A missing or empty `published` value, and a string `parseIso` fails on,
all map to `datetime.min`, modelled as `0`. -/
def toDt (parseIso : Str → Option Nat) (a : Article) : Nat :=
  match a.published with
  | none => 0
  | some v => if v = [] then 0 else (parseIso (replaceZ v)).getD 0

/-- `sorted(arts, key=_to_dt, reverse=True)` (src/main.py line 197): the
stable descending sort by publication time.  Python's `sorted` is stable and
a stable sort by a total preorder is unique, so the stable
`List.insertionSort` below computes the same list. -/
def pySortByDtDesc (parseIso : Str → Option Nat) (l : List Article) : List Article :=
  List.insertionSort (fun a b => toDt parseIso b ≤ toDt parseIso a) l

/-- `arts_sorted[:per_section_pool]` (src/main.py line 198): the candidate
pool shown to the oracle. -/
def candidatePool (parseIso : Str → Option Nat) (arts : List Article)
    (poolSize : Nat) : List Article :=
  (pySortByDtDesc parseIso arts).take poolSize

/-- The parsing loop of `_pick_indices_with_ollama` (src/main.py lines
180-185): split the raw response on newlines and commas, strip each token,
keep the integer value of every all-digit token. -/
def parsePicks (raw : Str) : List Nat :=
  (splitComma (replaceNl raw)).filterMap (fun tok => pyParseDigits (pyStrip tok))

/-- `_pick_indices_with_ollama`'s result as a function of the oracle's
response (src/main.py lines 173-187): `none` models the `except` branch (the
`ollama.chat` call raised), `some raw` a raw text reply, which the source
first strips (line 178). -/
def pickIndices (resp : Option Str) : List Nat :=
  match resp with
  | none => []
  | some raw => parsePicks (pyStrip raw)

/-- The validation loop of `summarize_news` (src/main.py lines 212-217):
keep each pick that is a key of `local_map` (a 1-based index into the pool)
and not seen before. -/
def keepValid (poolLen : Nat) : List Nat → List Nat → List Nat
  | _, [] => []
  | seen, i :: rest =>
    if 1 ≤ i ∧ i ≤ poolLen ∧ i ∉ seen then i :: keepValid poolLen (i :: seen) rest
    else keepValid poolLen seen rest

/-- The chosen 1-based indices for one section (src/main.py lines 212-224):
the validated oracle picks, or the deterministic fallback
`range(1, min(len(pool), per_section_limit) + 1)` when validation left
nothing, truncated to `chosen[:per_section_limit]`. -/
def chosenIdxs (poolLen limit : Nat) (picks : List Nat) : List Nat :=
  let chosen := keepValid poolLen [] picks
  let chosen := if chosen = [] then List.range' 1 (min poolLen limit) else chosen
  chosen.take limit

/-- One section's final selection of articles (src/main.py lines 196-224):
sort, pool, validate the oracle picks, fall back, truncate, and look each
chosen index up in `local_map` (`pool[i - 1]`). -/
def curateSection (parseIso : Str → Option Nat) (arts : List Article)
    (resp : Option Str) (limit poolSize : Nat) : List Article :=
  let pool := candidatePool parseIso arts poolSize
  (chosenIdxs pool.length limit (pickIndices resp)).filterMap (fun i => pool[i - 1]?)

/-- One rendered list item (src/main.py lines 226-232): the f-string
interpolates title, the first 300 characters of the stripped content, the
link and the source verbatim, with no escaping of any kind. -/
def renderItem (a : Article) : Str :=
  "<li><strong>".toList ++ pyStrip a.title ++ "</strong>: ".toList
    ++ (pyStrip a.content).take 300
    ++ " <a href=".toList ++ [squote] ++ pyOrD a.url "#".toList ++ [squote]
    ++ ">[".toList ++ strOr a.source "Unknown".toList ++ "]</a></li>".toList

/-- One rendered section block (src/main.py lines 223-234): heading,
list open, one item per chosen article, list close, joined by newlines. -/
def renderSection (name : Str) (items : List Article) : Str :=
  List.intercalate "\n".toList
    (["<h2>".toList ++ pyUpper name ++ "</h2>".toList, "<ul>".toList]
      ++ items.map renderItem ++ ["</ul>".toList])

/-- The fixed section enumeration of `summarize_news` (src/main.py 111-119). -/
def SECTION_ORDER : List Str :=
  ["AI News".toList, "Major International News".toList, "Australian News".toList,
   "Sports News".toList, "Tech News".toList, "Long-Form Articles".toList,
   "Trending on Social Media".toList]

/-- The sections mapping passed to `summarize_news`, as an association list. -/
abbrev Sections := List (Str × List Article)

/-- `sections.get(section_name, []) or []` (src/main.py line 192). -/
def getSec (st : Sections) (name : Str) : List Article :=
  match st.lookup name with
  | none => []
  | some l => if l = [] then [] else l

/-- One iteration of the per-section loop of `summarize_news` (src/main.py
lines 191-234), with the sections mapping threaded as explicit state: the
loop only reads it (`sections.get`); `sorted` and slicing build fresh lists.
The oracle is an opaque response map from the section to its raw reply
(`none` = the call raised). -/
def runSection (parseIso : Str → Option Nat) (oracle : Str → Option Str)
    (limit poolSize : Nat) (st : Sections) (name : Str) :
    Sections × Option Str :=
  let arts := getSec st name
  if arts = [] then (st, none)
  else (st, some (renderSection name (curateSection parseIso arts (oracle name) limit poolSize)))

/-- One step of the `summarize_news` loop: thread the sections state and
append the rendered block (`html_parts.append`, src/main.py line 234) when
the section produced one. -/
def summarizeStep (parseIso : Str → Option Nat) (oracle : Str → Option Str)
    (limit poolSize : Nat) (acc : Sections × List Str) (name : Str) :
    Sections × List Str :=
  match runSection parseIso oracle limit poolSize acc.1 name with
  | (st2, none) => (st2, acc.2)
  | (st2, some h) => (st2, acc.2 ++ [h])

/-- The whole of `summarize_news` (src/main.py lines 104-236) over the
explicit sections state: fold the per-section step over `SECTION_ORDER`,
collecting the rendered blocks, and join them (line 236). -/
def summarizeNewsRun (parseIso : Str → Option Nat) (oracle : Str → Option Str)
    (limit poolSize : Nat) (st : Sections) : Sections × Str :=
  let fin := SECTION_ORDER.foldl (summarizeStep parseIso oracle limit poolSize) (st, [])
  (fin.1, List.intercalate "\n\n".toList fin.2)

/-- The topical buckets the RSS classifier can assign (src/main.py 520-535);
`none` from `classifyRss` models the explicit `continue` (discard). -/
inductive RssSection where
  | sports
  | ai
  | australian
  | trending
  | international
deriving DecidableEq

/-- `sports_keywords` (src/main.py line 523). -/
def sportsKeywords : List Str :=
  ["cricket".toList, "f1".toList, "formula 1".toList, "athletics".toList,
   "soccer".toList, "running".toList, "marathon".toList]

/-- The excluded-sport keywords (src/main.py line 526). -/
def otherSportKeywords : List Str :=
  ["football".toList, "basketball".toList, "rugby".toList, "sports".toList]

/-- The Australian source names (src/main.py line 530). -/
def ausSources : List Str :=
  ["abc news".toList, "sydney morning herald".toList, "the australian".toList]

/-- `any(word in content for word in kws)`. -/
def hasAnyKw (content : Str) (kws : List Str) : Bool :=
  kws.any (fun w => strContains content w)

/-- The RSS article classifier of `main` (src/main.py lines 521-535): the
chained conditionals over the lower-cased `title + ' ' + content`, in source
order, with Major International News as the default bucket. -/
def classifyRss (a : Article) : Option RssSection :=
  let c := pyLower (a.title ++ [' '] ++ a.content)
  if hasAnyKw c sportsKeywords then some .sports
  else if hasAnyKw c otherSportKeywords && !(hasAnyKw c sportsKeywords) then none
  else if strContains c "artificial intelligence".toList
       || strContains c "machine learning".toList then some .ai
  else if strContains c "australia".toList || strContains c "australian".toList
       || ausSources.contains (pyLower a.source) then some .australian
  else if strContains c "trending".toList || strContains c "viral".toList then some .trending
  else some .international

/-- The raw NewsAPI article JSON fields read by `fetch_newsapi_news`
(src/main.py lines 90-98): absent keys are `none`; `sourceName`/`sourceId`
are `(a.get("source") or {}).get("name"/"id")`. -/
structure NewsApiRaw where
  title : Option Str
  content : Option Str
  description : Option Str
  url : Option Str
  sourceName : Option Str
  sourceId : Option Str
  publishedAt : Option Str
deriving DecidableEq

/-- The normalization of one NewsAPI article (src/main.py lines 92-98):
`title or ""`, `content or (description or "")`, `url` verbatim,
`name or id or "Unknown"`, `publishedAt` verbatim. -/
def normalizeNewsApi (a : NewsApiRaw) : Article :=
  { title := pyOrD a.title []
  , content := pyOrD a.content (pyOrD a.description [])
  , url := a.url
  , source := pyOrD a.sourceName (pyOrD a.sourceId "Unknown".toList)
  , published := a.publishedAt }

/-- One RSS feed entry as read by `fetch_rss_news` (src/main.py lines 38-49),
restricted to entries with `published_parsed` set (the only ones that can
produce an article): `pubIso` is `datetime(*published[:6]).isoformat()`. -/
structure RssEntry where
  title : Str
  summary : Option Str
  description : Option Str
  link : Str
  pubIso : Str
deriving DecidableEq

/-- The normalization of one RSS entry (src/main.py lines 43-49): the feed
title when the feed has one, else the feed URL, is the source; content is
`summary or description or ""`. -/
def normalizeRss (feedTitle : Option Str) (feedUrl : Str) (e : RssEntry) : Article :=
  { title := e.title
  , content := pyOrD e.summary (pyOrD e.description [])
  , url := some e.link
  , source := match feedTitle with | some t => t | none => feedUrl
  , published := some e.pubIso }

/-- Times are modelled in hours; `timedelta(days=d)` is `24 * d` hours.
`cutoff_date = datetime.now() - timedelta(days=days_back)`
(src/main.py line 33). -/
def rssCutoff (now daysBack : Int) : Int := now - 24 * daysBack

/-- The client-side window check of `fetch_rss_news` (src/main.py lines
39-42): an entry is kept exactly when `published_parsed` is present and
`pub_date >= cutoff_date`. -/
def rssKeeps (now daysBack : Int) (publishedParsed : Option Int) : Bool :=
  match publishedParsed with
  | none => false
  | some p => decide (rssCutoff now daysBack ≤ p)

/-- The `from` query parameter of `fetch_newsapi_news` (src/main.py lines
65-67): `to_dt - timedelta(days=days_back)` with `to_dt = now - 24h`. -/
def newsapiFromParam (now daysBack : Int) : Int := (now - 24) - 24 * daysBack

/-- The `to` query parameter of `fetch_newsapi_news` (src/main.py line 66):
`now - timedelta(hours=24)`. -/
def newsapiToParam (now : Int) : Int := now - 24

/-- Modelled from the spec: the news-search API itself is not part of the
repository; per spec section 6 it accepts "a date range" and returns the
articles inside it, so it retains exactly the publication times between the
request's `from` and `to` parameters (built at src/main.py lines 65-71). -/
def newsapiKeeps (now daysBack p : Int) : Bool :=
  decide (newsapiFromParam now daysBack ≤ p ∧ p ≤ newsapiToParam now)

/-- The recipient loop of `send_email` (src/main.py lines 408-425), which
sits inside one `try`: `send r = false` models `server.sendmail` raising for
recipient `r`, which jumps to the `except` that prints the error (so the
failure is reported, not re-raised).  The result is the list of recipients
for which a send was attempted, and whether the loop finished cleanly. -/
def sendLoop (send : Str → Bool) : List Str → List Str × Bool
  | [] => ([], true)
  | r :: rest =>
    if send r then
      let fin := sendLoop send rest
      (r :: fin.1, fin.2)
    else ([r], false)


/-- A concrete stand-in for `datetime.fromisoformat` covering the demo
timestamps (hours since midnight) and the minimal ISO timestamp, which
parses to `datetime.min` itself. -/
def parseIsoDemo : Str → Option Nat := fun v =>
  if v = "2025-01-01T03:00:00".toList then some 27
  else if v = "2025-01-01T02:00:00".toList then some 26
  else if v = "2025-01-01T01:00:00".toList then some 25
  else if v = "0001-01-01T00:00:00".toList then some 0
  else none

/-- The spec's end-to-end example pool, newest first: "F1 race report". -/
def artF1 : Article :=
  { title := "F1 race report".toList, content := "Race summary".toList
  , url := some "http://ex.com/f1".toList, source := "BBC Sport".toList
  , published := some "2025-01-01T03:00:00".toList }

/-- The spec's end-to-end example pool: "Cricket final". -/
def artCricket : Article :=
  { title := "Cricket final".toList, content := "Match report".toList
  , url := some "http://ex.com/cricket".toList, source := "ABC".toList
  , published := some "2025-01-01T02:00:00".toList }

/-- The spec's end-to-end example pool: "Unrelated item". -/
def artUnrelated : Article :=
  { title := "Unrelated item".toList, content := "Something else".toList
  , url := some "http://ex.com/other".toList, source := "CNN".toList
  , published := some "2025-01-01T01:00:00".toList }

/-- The spec's example Sports News pool in arrival order (already newest
first, so sorting keeps this order). -/
def demoArts : List Article := [artF1, artCricket, artUnrelated]


/-- An article with no `published` value at all. -/
def artMissing : Article :=
  { title := "No timestamp".toList, content := [], url := none
  , source := "X".toList, published := none }

/-- An article whose `published` value parses successfully to the smallest
possible datetime (`datetime.fromisoformat("0001-01-01T00:00:00")` is
exactly `datetime.min`, modelled as `0`). -/
def artEpochMin : Article :=
  { title := "Dawn of time".toList, content := [], url := none
  , source := "Y".toList, published := some "0001-01-01T00:00:00".toList }

/-- A Python `datetime` value as `summarize_news` compares them: `aware`
records whether the value carries timezone info — `fromisoformat` returns an
aware datetime exactly when the string has an offset (e.g. after the
source's `replace("Z", "+00:00")`), a naive one otherwise, and Python
raises `TypeError` when comparing an aware datetime with a naive one —
and `val` is the comparable instant.  `datetime.min` is naive. -/
structure PyDT where
  aware : Bool
  val : Nat
deriving DecidableEq

/-- `datetime.min`, the (naive) fallback value of `_to_dt`. -/
def dtMinTz : PyDT := { aware := false, val := 0 }

/-- Python `x <= y` on datetimes: defined when both are aware or both
naive; comparing mixed values raises `TypeError`, modelled as `none`. -/
def pyCmpLe (x y : PyDT) : Option Bool :=
  if x.aware = y.aware then some (decide (x.val ≤ y.val)) else none

/-- `_to_dt` (src/main.py lines 137-145) in the timezone-faithful model:
`parseTz` models `datetime.fromisoformat` applied after the
`replace("Z", "+00:00")`; missing, empty and unparsable values fall back to
the naive `datetime.min`. -/
def toDtTz (parseTz : Str → Option PyDT) (a : Article) : PyDT :=
  match a.published with
  | none => dtMinTz
  | some v => if v = [] then dtMinTz else (parseTz (replaceZ v)).getD dtMinTz

/-- One insertion step of the stable descending sort in the partial model:
`none` propagates the `TypeError` the key comparison can raise. -/
def pyInsertDescTz (key : Article → PyDT) (x : Article) :
    List Article → Option (List Article)
  | [] => some [x]
  | y :: ys =>
    match pyCmpLe (key y) (key x) with
    | none => none
    | some true => some (x :: y :: ys)
    | some false => (pyInsertDescTz key x ys).map (fun t => y :: t)

/-- The stable descending insertion sort in the partial model: `none` when
any key comparison mixes an aware and a naive datetime. -/
def pySortDescTz (key : Article → PyDT) : List Article → Option (List Article)
  | [] => some []
  | x :: xs =>
    match pySortDescTz key xs with
    | none => none
    | some s => pyInsertDescTz key x s

/-- `sorted(arts, key=_to_dt, reverse=True)` (src/main.py line 197) in the
timezone-faithful model: `none` is the `TypeError` Python's `sorted` raises
on a pool mixing aware and naive keys, which aborts `summarize_news`. -/
def pySortByDtDescTz (parseTz : Str → Option PyDT) (l : List Article) :
    Option (List Article) :=
  pySortDescTz (toDtTz parseTz) l

/-- The value projection of a timezone-aware parse function: the
`Nat`-valued parse function the total-value model works with. -/
def parseVal (parseTz : Str → Option PyDT) : Str → Option Nat :=
  fun s => (parseTz s).map PyDT.val

/-- A NewsAPI-style article whose timestamp carries the "Z" (UTC) suffix,
so its parsed key is timezone-aware. -/
def artAwareZ : Article :=
  { title := "Aware item".toList, content := [], url := none
  , source := "API".toList, published := some "2025-01-01T03:00:00Z".toList }

/-- An RSS-style article whose isoformat timestamp has no offset, so its
parsed key is naive. -/
def artRssNaive : Article :=
  { title := "Naive item".toList, content := [], url := none
  , source := "RSS".toList, published := some "2025-01-01T02:00:00".toList }

/-- A concrete timezone-aware stand-in for `datetime.fromisoformat`:
offset-bearing strings parse aware, plain isoformat strings naive, and the
minimal ISO timestamp parses to (naive) `datetime.min` itself. -/
def parseTzDemo : Str → Option PyDT := fun v =>
  if v = "2025-01-01T03:00:00+00:00".toList then some { aware := true, val := 27 }
  else if v = "2025-01-01T02:00:00".toList then some { aware := false, val := 26 }
  else if v = "0001-01-01T00:00:00".toList then some { aware := false, val := 0 }
  else none

/-- An article with no classification keywords, from an Australian source
name (matched case-insensitively by the classifier's source check). -/
def artAbcLocal : Article :=
  { title := "Local update".toList, content := [], url := none
  , source := "ABC News".toList, published := none }

/-- The same title and content as `artAbcLocal`, from a different source. -/
def artCnnLocal : Article :=
  { title := "Local update".toList, content := [], url := none
  , source := "CNN".toList, published := none }

/-- An article whose title carries markup-significant characters. -/
def artEvil : Article :=
  { title := "<script>alert(1)</script>".toList
  , content := "A & B <i>story</i>".toList
  , url := some "http://ex.com/x".toList
  , source := "Feed <One>".toList
  , published := none }

/-- A send outcome map under which the first recipient's `sendmail` raises
and every other recipient's succeeds. -/
def failOnAlice : Str → Bool := fun r => !(r == "alice@example.com".toList)

/-- A NewsAPI article JSON object with every field absent. -/
def rawNone : NewsApiRaw :=
  { title := none, content := none, description := none, url := none
  , sourceName := none, sourceId := none, publishedAt := none }

/-- A minimal RSS entry for instantiating the adapter theorems. -/
def rssEntryDemo : RssEntry :=
  { title := "Entry".toList, summary := none, description := none
  , link := "http://ex.com/e".toList, pubIso := "2025-01-01T00:00:00".toList }

/-- Keep the first occurrence of every value, dropping later duplicates:
the order-independent characterization of the source's `seen`-set loop. -/
def dedupFirst : List Nat → List Nat
  | [] => []
  | i :: rest => i :: dedupFirst (rest.filter (fun j => decide (j ≠ i)))
termination_by l => l.length
decreasing_by
  exact Nat.lt_succ_of_le (List.length_filter_le _ _)

theorem keepValid_mem (n : Nat) : ∀ (picks seen : List Nat) (i : Nat),
    i ∈ keepValid n seen picks → (1 ≤ i ∧ i ≤ n) ∧ i ∉ seen := by
  intro picks
  induction picks with
  | nil => intro seen i h; simp [keepValid] at h
  | cons j rest ih =>
    intro seen i h
    simp only [keepValid] at h
    split at h
    · rename_i hc
      rcases List.mem_cons.mp h with rfl | hmem
      · exact ⟨⟨hc.1, hc.2.1⟩, hc.2.2⟩
      · have h2 := ih (j :: seen) i hmem
        exact ⟨h2.1, fun hs => h2.2 (List.mem_cons_of_mem _ hs)⟩
    · exact ih seen i h

theorem keepValid_nodup (n : Nat) : ∀ (picks seen : List Nat),
    (keepValid n seen picks).Nodup := by
  intro picks
  induction picks with
  | nil => intro seen; simp [keepValid]
  | cons j rest ih =>
    intro seen
    simp only [keepValid]
    split
    · refine List.nodup_cons.mpr ⟨fun hmem => ?_, ih (j :: seen)⟩
      exact (keepValid_mem n rest (j :: seen) j hmem).2 (List.mem_cons_self j seen)
    · exact ih seen

theorem chosenIdxs_mem (n limit : Nat) (picks : List Nat) :
    ∀ i ∈ chosenIdxs n limit picks, 1 ≤ i ∧ i ≤ n := by
  intro i hi
  unfold chosenIdxs at hi
  have hi' := List.mem_of_mem_take hi
  split at hi'
  · have h := List.mem_range'_1.mp hi'
    exact ⟨h.1, le_trans (Nat.lt_succ_iff.mp (by omega)) (Nat.min_le_left n limit)⟩
  · exact (keepValid_mem n picks [] i hi').1

theorem chosenIdxs_nodup (n limit : Nat) (picks : List Nat) :
    (chosenIdxs n limit picks).Nodup := by
  unfold chosenIdxs
  refine List.Nodup.sublist (List.take_sublist _ _) ?_
  split
  · exact List.nodup_range' 1 _
  · exact keepValid_nodup n picks []

theorem chosenIdxs_length_le (n limit : Nat) (picks : List Nat) :
    (chosenIdxs n limit picks).length ≤ limit := by
  unfold chosenIdxs
  exact le_trans (Nat.le_of_eq (List.length_take _ _)) (Nat.min_le_left _ _)

theorem filterMap_getElem_nodup (pool : List Article) :
    ∀ (idxs : List Nat), idxs.Nodup → (∀ i ∈ idxs, 1 ≤ i ∧ i ≤ pool.length) →
    pool.Nodup → (idxs.filterMap (fun i => pool[i - 1]?)).Nodup := by
  intro idxs
  induction idxs with
  | nil => intro _ _ _; simp
  | cons i rest ih =>
    intro hnd hb hp
    have hib := hb i (List.mem_cons_self i rest)
    have hi : i - 1 < pool.length := by omega
    have hget : pool[i - 1]? = some pool[i - 1] := List.getElem?_eq_getElem hi
    simp only [List.filterMap_cons, hget]
    refine List.nodup_cons.mpr ⟨fun hmem => ?_, ?_⟩
    · obtain ⟨j, hj, hgj⟩ := List.mem_filterMap.mp hmem
      have hjb := hb j (List.mem_cons_of_mem _ hj)
      have : i - 1 = j - 1 :=
        List.getElem?_inj hi hp (by rw [hget, hgj])
      have : i = j := by omega
      exact (List.nodup_cons.mp hnd).1 (this ▸ hj)
    · exact ih (List.nodup_cons.mp hnd).2 (fun j hj => hb j (List.mem_cons_of_mem _ hj)) hp

/-- C1: for every section pool, oracle response, limit and pool size, the
final selection has at most `limit` items, every selected article is a
member of that section's candidate pool, the chosen pool indices are
pairwise distinct, and (for a duplicate-free input) no article appears twice
in the selection. -/
theorem selection_bounded_in_pool_no_dup (parseIso : Str → Option Nat)
    (arts : List Article) (resp : Option Str) (limit poolSize : Nat) :
    (curateSection parseIso arts resp limit poolSize).length ≤ limit
    ∧ (∀ a ∈ curateSection parseIso arts resp limit poolSize,
        a ∈ candidatePool parseIso arts poolSize)
    ∧ (chosenIdxs (candidatePool parseIso arts poolSize).length limit
        (pickIndices resp)).Nodup
    ∧ (arts.Nodup → (curateSection parseIso arts resp limit poolSize).Nodup) := by
  refine ⟨?_, ?_, ?_, ?_⟩
  · exact le_trans (List.length_filterMap_le _ _) (chosenIdxs_length_le _ _ _)
  · intro a ha
    obtain ⟨i, _, hget⟩ := List.mem_filterMap.mp ha
    obtain ⟨hlt, heq⟩ := List.getElem?_eq_some_iff.mp hget
    exact heq ▸ List.getElem_mem hlt
  · exact chosenIdxs_nodup _ _ _
  · intro hnd
    refine filterMap_getElem_nodup _ _ (chosenIdxs_nodup _ _ _) (chosenIdxs_mem _ _ _) ?_
    refine List.Nodup.sublist (List.take_sublist _ _) ?_
    exact (List.perm_insertionSort _ arts).symm.nodup hnd

/-- Closed witness for the selection invariant, at the spec's example pool
and the oracle reply "1,2". -/
theorem selection_bounded_in_pool_no_dup_witness :
    demoArts.Nodup
    ∧ (curateSection parseIsoDemo demoArts (some "1,2".toList) 7 12).Nodup :=
  ⟨by decide,
   (selection_bounded_in_pool_no_dup parseIsoDemo demoArts (some "1,2".toList) 7 12).2.2.2
     (by decide)⟩

theorem filterMap_getElem_range' (pool : List Article) :
    ∀ (m s : Nat), s + m ≤ pool.length →
    (List.range' (s + 1) m).filterMap (fun i => pool[i - 1]?)
      = (pool.drop s).take m := by
  intro m
  induction m with
  | zero => intro s _; simp
  | succ m ih =>
    intro s hs
    have hlt : s < pool.length := by omega
    rw [List.range'_succ]
    simp only [List.filterMap_cons, Nat.add_sub_cancel,
      List.getElem?_eq_getElem hlt]
    rw [List.drop_eq_getElem_cons hlt, List.take_succ_cons]
    have : s + 1 + 1 = (s + 1) + 1 := rfl
    rw [show s + 1 + 1 = (s + 1) + 1 from rfl] at *
    rw [ih (s + 1) (by omega)]

/-- C2: for every section whose candidate pool is non-empty and every oracle
response whose validated index set is empty (a raised call, an empty or
garbage reply, or only out-of-range indices), the selection is the
deterministic fallback: the first `min(limit, pool size)` items of the
recency-sorted candidate pool, and it is not empty. -/
theorem fallback_top_n_nonempty (parseIso : Str → Option Nat)
    (arts : List Article) (resp : Option Str) (limit poolSize : Nat)
    (hpool : candidatePool parseIso arts poolSize ≠ [])
    (hlim : 0 < limit)
    (hval : keepValid (candidatePool parseIso arts poolSize).length []
      (pickIndices resp) = []) :
    curateSection parseIso arts resp limit poolSize
      = (candidatePool parseIso arts poolSize).take
          (min limit (candidatePool parseIso arts poolSize).length)
    ∧ curateSection parseIso arts resp limit poolSize ≠ [] := by
  have hn : 0 < (candidatePool parseIso arts poolSize).length :=
    List.length_pos.mpr hpool
  have hidx : chosenIdxs (candidatePool parseIso arts poolSize).length limit
      (pickIndices resp)
      = List.range' 1 (min (candidatePool parseIso arts poolSize).length limit) := by
    unfold chosenIdxs
    rw [hval]
    simp only [reduceIte]
    exact List.take_of_length_le (by rw [List.length_range']; omega)
  have hsel : curateSection parseIso arts resp limit poolSize
      = (candidatePool parseIso arts poolSize).take
          (min (candidatePool parseIso arts poolSize).length limit) := by
    simp only [curateSection]
    rw [hidx]
    have h0 := filterMap_getElem_range' (candidatePool parseIso arts poolSize)
      (min (candidatePool parseIso arts poolSize).length limit) 0 (by omega)
    simpa using h0
  constructor
  · rw [hsel, Nat.min_comm]
  · rw [hsel]
    refine List.ne_nil_of_length_pos ?_
    rw [List.length_take]
    omega

/-- Closed witness for the fallback: the spec's example pool with a garbage
oracle reply falls back to the whole (3-item) pool under the default limit 7. -/
theorem fallback_top_n_nonempty_witness :
    candidatePool parseIsoDemo demoArts 12 ≠ []
    ∧ keepValid (candidatePool parseIsoDemo demoArts 12).length []
        (pickIndices (some "garbage, no digits!".toList)) = []
    ∧ curateSection parseIsoDemo demoArts (some "garbage, no digits!".toList) 7 12
        = (candidatePool parseIsoDemo demoArts 12).take
            (min 7 (candidatePool parseIsoDemo demoArts 12).length) :=
  ⟨by decide, by decide,
   (fallback_top_n_nonempty parseIsoDemo demoArts (some "garbage, no digits!".toList) 7 12
     (by decide) (by decide) (by decide)).1⟩

theorem keepValid_eq_dedupFirst (n : Nat) : ∀ (picks seen : List Nat),
    keepValid n seen picks
      = dedupFirst ((picks.filter (fun i => decide (1 ≤ i ∧ i ≤ n))).filter
          (fun i => decide (i ∉ seen))) := by
  intro picks
  induction picks with
  | nil => intro seen; simp [keepValid, dedupFirst]
  | cons j rest ih =>
    intro seen
    by_cases h1 : 1 ≤ j ∧ j ≤ n
    · by_cases h2 : j ∈ seen
      · have hcond : ¬(1 ≤ j ∧ j ≤ n ∧ j ∉ seen) := fun h => h.2.2 h2
        simp only [keepValid, if_neg hcond, List.filter_cons, decide_eq_true_eq]
        rw [if_pos h1, List.filter_cons]
        simp only [decide_eq_true_eq]
        rw [if_neg (by simpa using h2)]
        exact ih seen
      · have hcond : 1 ≤ j ∧ j ≤ n ∧ j ∉ seen := ⟨h1.1, h1.2, h2⟩
        simp only [keepValid, if_pos hcond, List.filter_cons, decide_eq_true_eq]
        rw [if_pos h1, List.filter_cons]
        simp only [decide_eq_true_eq]
        rw [if_pos h2]
        rw [dedupFirst]
        congr 1
        rw [ih (j :: seen)]
        congr 1
        simp only [List.filter_filter]
        apply List.filter_congr
        intro x _
        by_cases hx1 : x = j <;> by_cases hx2 : x ∈ seen <;>
          simp [hx1, hx2, List.mem_cons]
    · have hcond : ¬(1 ≤ j ∧ j ≤ n ∧ j ∉ seen) := fun h => h1 ⟨h.1, h.2.1⟩
      simp only [keepValid, if_neg hcond, List.filter_cons, decide_eq_true_eq]
      rw [if_neg h1]
      exact ih seen

/-- C3: the validation of a raw oracle reply keeps exactly the in-range
(1-based) integer tokens, first occurrence only and in first-occurrence
order; on the spec's 3-item example pool with limit 2, the reply "1,1,3"
selects items 1 and 3 of the pool, in that order and of length 2. -/
theorem parse_validate_first_occurrence :
    (∀ (n : Nat) (picks : List Nat),
      keepValid n [] picks
        = dedupFirst (picks.filter (fun i => decide (1 ≤ i ∧ i ≤ n))))
    ∧ parsePicks "1,1,3".toList = [1, 1, 3]
    ∧ curateSection parseIsoDemo demoArts (some "1,1,3".toList) 2 12
        = [artF1, artUnrelated]
    ∧ (curateSection parseIsoDemo demoArts (some "1,1,3".toList) 2 12).length = 2 := by
  refine ⟨?_, by decide, by decide, by decide⟩
  intro n picks
  have h := keepValid_eq_dedupFirst n picks []
  simpa using h

theorem filter_orderedInsert_neg {α : Type} (key : α → Nat) (c : Nat) (x : α)
    (hx : ¬ key x = c) :
    ∀ s : List α,
      (List.orderedInsert (fun a b => key b ≤ key a) x s).filter
          (fun a => decide (key a = c))
        = s.filter (fun a => decide (key a = c)) := by
  intro s
  induction s with
  | nil => simp [List.orderedInsert, hx]
  | cons y ys ih =>
    simp only [List.orderedInsert]
    split
    · simp [List.filter_cons, hx]
    · by_cases hy : key y = c <;> simp [List.filter_cons, hy, ih]

theorem filter_orderedInsert_pos {α : Type} (key : α → Nat) (c : Nat) (x : α)
    (hx : key x = c) :
    ∀ s : List α, s.Pairwise (fun a b => key b ≤ key a) →
      (List.orderedInsert (fun a b => key b ≤ key a) x s).filter
          (fun a => decide (key a = c))
        = x :: s.filter (fun a => decide (key a = c)) := by
  intro s
  induction s with
  | nil => intro _; simp [List.orderedInsert, hx]
  | cons y ys ih =>
    intro hs
    simp only [List.orderedInsert]
    split
    · simp [List.filter_cons, hx]
    · rename_i hr
      have hy : ¬ key y = c := by
        simp only [not_le] at hr; omega
      simp [List.filter_cons, hy, ih (List.pairwise_cons.mp hs).2]

theorem insertionSort_filter_key {α : Type} (key : α → Nat) (c : Nat) :
    ∀ l : List α,
      (List.insertionSort (fun a b => key b ≤ key a) l).filter
          (fun a => decide (key a = c))
        = l.filter (fun a => decide (key a = c)) := by
  haveI : IsTotal α (fun a b => key b ≤ key a) :=
    ⟨fun a b => Nat.le_total (key b) (key a)⟩
  haveI : IsTrans α (fun a b => key b ≤ key a) :=
    ⟨fun _ _ _ hab hbc => le_trans hbc hab⟩
  intro l
  induction l with
  | nil => rfl
  | cons x xs ih =>
    simp only [List.insertionSort]
    by_cases hx : key x = c
    · rw [filter_orderedInsert_pos key c x hx _
        (List.sorted_insertionSort (fun a b => key b ≤ key a) xs)]
      rw [ih, List.filter_cons]
      simp [hx]
    · rw [filter_orderedInsert_neg key c x hx, ih, List.filter_cons]
      simp [hx]

/-- Helper: the value-level sort (the comparable-keys case) is idempotent,
a permutation of the input, pairwise descending in the `_to_dt` key, and
stable: for every key value `c`, the items whose key is `c` appear in their
original arrival order. -/
theorem sort_desc_idempotent_stable (parseIso : Str → Option Nat)
    (l : List Article) (c : Nat) :
    pySortByDtDesc parseIso (pySortByDtDesc parseIso l) = pySortByDtDesc parseIso l
    ∧ (pySortByDtDesc parseIso l).Perm l
    ∧ (∀ a b : Article, [a, b].Sublist (pySortByDtDesc parseIso l) →
        toDt parseIso b ≤ toDt parseIso a)
    ∧ (pySortByDtDesc parseIso l).filter (fun a => decide (toDt parseIso a = c))
        = l.filter (fun a => decide (toDt parseIso a = c)) := by
  haveI : IsTotal Article (fun a b => toDt parseIso b ≤ toDt parseIso a) :=
    ⟨fun a b => Nat.le_total (toDt parseIso b) (toDt parseIso a)⟩
  haveI : IsTrans Article (fun a b => toDt parseIso b ≤ toDt parseIso a) :=
    ⟨fun _ _ _ hab hbc => le_trans hbc hab⟩
  have hsorted := List.sorted_insertionSort
    (fun a b => toDt parseIso b ≤ toDt parseIso a) l
  refine ⟨?_, ?_, ?_, ?_⟩
  · exact List.Sorted.insertionSort_eq hsorted
  · exact List.perm_insertionSort _ l
  · intro a b hsub
    have hp := List.Pairwise.sublist hsub hsorted
    exact (List.pairwise_cons.mp hp).1 b (List.mem_singleton.mpr rfl)
  · exact insertionSort_filter_key (toDt parseIso) c l

theorem pyCmpLe_flags (x y : PyDT) (b : Bool) (h : pyCmpLe x y = some b) :
    x.aware = y.aware := by
  unfold pyCmpLe at h
  by_cases hf : x.aware = y.aware
  · exact hf
  · rw [if_neg hf] at h
    exact absurd h (by simp)

theorem pyInsertDescTz_perm (key : Article → PyDT) (x : Article) :
    ∀ (s t : List Article), pyInsertDescTz key x s = some t → t.Perm (x :: s) := by
  intro s
  induction s with
  | nil =>
    intro t h
    simp only [pyInsertDescTz, Option.some_inj] at h
    exact h ▸ List.Perm.refl _
  | cons y ys ih =>
    intro t h
    simp only [pyInsertDescTz] at h
    rcases hc : pyCmpLe (key y) (key x) with _ | b
    · rw [hc] at h; exact absurd h (by simp)
    · rw [hc] at h
      cases b with
      | true =>
        simp only [Option.some_inj] at h
        exact h ▸ List.Perm.refl _
      | false =>
        rcases hu : pyInsertDescTz key x ys with _ | u
        · rw [hu] at h; exact absurd h (by simp)
        · rw [hu] at h
          have h2 : y :: u = t := by simpa using h
          subst h2
          exact ((ih u hu).cons y).trans (List.Perm.swap x y ys)

theorem pyInsertDescTz_head_flag (key : Article → PyDT) (x y : Article)
    (ys t : List Article) (h : pyInsertDescTz key x (y :: ys) = some t) :
    (key y).aware = (key x).aware := by
  simp only [pyInsertDescTz] at h
  rcases hc : pyCmpLe (key y) (key x) with _ | b
  · rw [hc] at h; exact absurd h (by simp)
  · exact pyCmpLe_flags _ _ b hc

theorem pySortDescTz_perm (key : Article → PyDT) :
    ∀ (l s : List Article), pySortDescTz key l = some s → s.Perm l := by
  intro l
  induction l with
  | nil =>
    intro s h
    simp only [pySortDescTz, Option.some_inj] at h
    exact h ▸ List.Perm.refl _
  | cons x xs ih =>
    intro s h
    simp only [pySortDescTz] at h
    rcases hs : pySortDescTz key xs with _ | s1
    · rw [hs] at h; exact absurd h (by simp)
    · rw [hs] at h
      exact (pyInsertDescTz_perm key x s1 s h).trans ((ih s1 hs).cons x)

theorem pySortDescTz_uniform (key : Article → PyDT) :
    ∀ (l s : List Article), pySortDescTz key l = some s →
    ∀ a ∈ l, ∀ b ∈ l, (key a).aware = (key b).aware := by
  intro l
  induction l with
  | nil => intro s _ a ha; exact absurd ha (by simp)
  | cons x xs ih =>
    intro s h
    simp only [pySortDescTz] at h
    rcases hs : pySortDescTz key xs with _ | s1
    · rw [hs] at h; exact absurd h (by simp)
    · rw [hs] at h
      have huni := ih s1 hs
      have hx : ∀ b ∈ xs, (key x).aware = (key b).aware := by
        intro b hb
        rcases s1 with _ | ⟨y, ys⟩
        · have : xs = [] := ((pySortDescTz_perm key xs [] hs).symm).eq_nil
          rw [this] at hb
          exact absurd hb (by simp)
        · have hy : y ∈ xs := (pySortDescTz_perm key xs _ hs).mem_iff.mp
            (List.mem_cons_self y ys)
          have h1 := pyInsertDescTz_head_flag key x y ys s h
          rw [← h1]
          exact huni y hy b hb
      intro a ha b hb
      rcases List.mem_cons.mp ha with rfl | ha2 <;>
        rcases List.mem_cons.mp hb with rfl | hb2
      · rfl
      · exact hx b hb2
      · exact (hx a ha2).symm
      · exact huni a ha2 b hb2

theorem toDtTz_val (parseTz : Str → Option PyDT) (a : Article) :
    (toDtTz parseTz a).val = toDt (parseVal parseTz) a := by
  unfold toDtTz toDt parseVal
  rcases a.published with _ | v
  · rfl
  · by_cases hv : v = []
    · simp [hv, dtMinTz]
    · simp only [hv, if_neg hv]
      rcases parseTz (replaceZ v) with _ | p <;> simp [dtMinTz]

theorem pyInsertDescTz_eq_orderedInsert (parseTz : Str → Option PyDT)
    (fl : Bool) (x : Article) (hx : (toDtTz parseTz x).aware = fl) :
    ∀ s : List Article, (∀ y ∈ s, (toDtTz parseTz y).aware = fl) →
    pyInsertDescTz (toDtTz parseTz) x s
      = some (List.orderedInsert
          (fun a b => toDt (parseVal parseTz) b ≤ toDt (parseVal parseTz) a) x s) := by
  intro s
  induction s with
  | nil => intro _; rfl
  | cons y ys ih =>
    intro hs
    have hy : (toDtTz parseTz y).aware = fl := hs y (List.mem_cons_self y ys)
    have hcmp : pyCmpLe (toDtTz parseTz y) (toDtTz parseTz x)
        = some (decide (toDt (parseVal parseTz) y ≤ toDt (parseVal parseTz) x)) := by
      unfold pyCmpLe
      rw [if_pos (by rw [hy, hx]), toDtTz_val, toDtTz_val]
    simp only [pyInsertDescTz, hcmp, List.orderedInsert]
    by_cases hle : toDt (parseVal parseTz) y ≤ toDt (parseVal parseTz) x
    · simp [hle]
    · simp only [hle, decide_False, if_neg hle]
      rw [ih (fun z hz => hs z (List.mem_cons_of_mem y hz))]
      rfl

theorem pySortDescTz_eq_insertionSort (parseTz : Str → Option PyDT) (fl : Bool) :
    ∀ l : List Article, (∀ a ∈ l, (toDtTz parseTz a).aware = fl) →
    pySortDescTz (toDtTz parseTz) l = some (pySortByDtDesc (parseVal parseTz) l) := by
  intro l
  induction l with
  | nil => intro _; rfl
  | cons x xs ih =>
    intro hl
    have hxs : ∀ a ∈ xs, (toDtTz parseTz a).aware = fl :=
      fun a ha => hl a (List.mem_cons_of_mem x ha)
    simp only [pySortDescTz, ih hxs]
    have hmem : ∀ y ∈ pySortByDtDesc (parseVal parseTz) xs,
        (toDtTz parseTz y).aware = fl := by
      intro y hy
      exact hxs y ((List.perm_insertionSort _ xs).mem_iff.mp hy)
    rw [pyInsertDescTz_eq_orderedInsert parseTz fl x
      (hl x (List.mem_cons_self x xs)) _ hmem]
    rfl

/-- C4 (amended): sorting a section pool by publication time descending is
not a total operation: comparing a timezone-aware key (a timestamp carrying
an offset, such as NewsAPI's "Z" form) with a naive one (an RSS isoformat
timestamp, or the `datetime.min` default for missing or unparsable ones)
raises `TypeError`, so a pool holding both kinds produces no sorted pool at
all.  On a pool whose keys are uniformly aware or uniformly naive the sort
succeeds and equals the stable descending value sort, which is idempotent,
a permutation of the input, and pairwise descending in the `_to_dt` key —
so an item whose timestamp parses strictly later than `datetime.min` is
never preceded by a missing-or-unparsable-timestamp item — and stable: for
every key value `c`, the items with key `c` (in particular all
missing-timestamp items, whose key is `datetime.min`) keep their original
arrival order. -/
theorem sort_tz_partial_idempotent_stable (parseTz : Str → Option PyDT)
    (l : List Article) (c : Nat) (fl : Bool) :
    (∀ a b : Article, a ∈ l → b ∈ l →
        (toDtTz parseTz a).aware ≠ (toDtTz parseTz b).aware →
        pySortByDtDescTz parseTz l = none)
    ∧ ((∀ a ∈ l, (toDtTz parseTz a).aware = fl) →
        pySortByDtDescTz parseTz l = some (pySortByDtDesc (parseVal parseTz) l))
    ∧ pySortByDtDesc (parseVal parseTz) (pySortByDtDesc (parseVal parseTz) l)
        = pySortByDtDesc (parseVal parseTz) l
    ∧ (pySortByDtDesc (parseVal parseTz) l).Perm l
    ∧ (∀ a b : Article, [a, b].Sublist (pySortByDtDesc (parseVal parseTz) l) →
        toDt (parseVal parseTz) b ≤ toDt (parseVal parseTz) a)
    ∧ (pySortByDtDesc (parseVal parseTz) l).filter
          (fun a => decide (toDt (parseVal parseTz) a = c))
        = l.filter (fun a => decide (toDt (parseVal parseTz) a = c)) := by
  obtain ⟨h1, h2, h3, h4⟩ := sort_desc_idempotent_stable (parseVal parseTz) l c
  refine ⟨?_, ?_, h1, h2, h3, h4⟩
  · intro a b ha hb hne
    rcases h : pySortByDtDescTz parseTz l with _ | s
    · rfl
    · exact absurd (pySortDescTz_uniform (toDtTz parseTz) l s h a ha b hb) hne
  · exact pySortDescTz_eq_insertionSort parseTz fl l

/-- Closed witness for the sort model: a two-article pool mixing an aware
("Z"-suffixed) and a naive timestamp sorts to `none` (the `TypeError`), and
the all-naive demo pool sorts successfully to the value-model result. -/
theorem sort_tz_partial_idempotent_stable_witness :
    pySortByDtDescTz parseTzDemo [artAwareZ, artRssNaive] = none
    ∧ pySortByDtDescTz parseTzDemo demoArts
        = some (pySortByDtDesc (parseVal parseTzDemo) demoArts) :=
  ⟨(sort_tz_partial_idempotent_stable parseTzDemo [artAwareZ, artRssNaive] 0 false).1
      artAwareZ artRssNaive (by decide) (by decide) (by decide),
   (sort_tz_partial_idempotent_stable parseTzDemo demoArts 0 false).2.1 (by decide)⟩

/-- C4 counterexample to the claim as stated: (totality) a pool holding one
timezone-aware ("Z"-suffixed NewsAPI) timestamp and one naive (RSS
isoformat) timestamp does not sort at all — Python's `sorted` raises
`TypeError`; and (missing-after-valid) an article whose timestamp is
present and parses — to `datetime.min` itself, e.g. "0001-01-01T00:00:00" —
ties with a missing-timestamp article, which therefore stays in front of
it. -/
theorem sort_tz_typeerror_min_tie_counterexample :
    pySortByDtDescTz parseTzDemo [artAwareZ, artRssNaive] = none
    ∧ artMissing.published = none
    ∧ parseTzDemo (replaceZ "0001-01-01T00:00:00".toList)
        = some { aware := false, val := 0 }
    ∧ artEpochMin.published = some "0001-01-01T00:00:00".toList
    ∧ pySortByDtDescTz parseTzDemo [artMissing, artEpochMin]
        = some [artMissing, artEpochMin] := by
  refine ⟨by decide, rfl, by decide, rfl, by decide⟩

/-- C5 (amended): RSS classification is a total, deterministic function of
the lower-cased `title + ' ' + content` text together with the lower-cased
source name (the Australian branch also tests the source), and it evaluates
its rules in exactly the source order: sports keywords first, then the
excluded-other-sport discard, then AI, then Australian, then trending, with
Major International News as the default bucket. -/
theorem classify_total_deterministic_ordered :
    (∀ a b : Article,
      pyLower (a.title ++ [' '] ++ a.content) = pyLower (b.title ++ [' '] ++ b.content) →
      pyLower a.source = pyLower b.source →
      classifyRss a = classifyRss b)
    ∧ (∀ a : Article,
      (hasAnyKw (pyLower (a.title ++ [' '] ++ a.content)) sportsKeywords = true →
        classifyRss a = some RssSection.sports)
      ∧ (hasAnyKw (pyLower (a.title ++ [' '] ++ a.content)) sportsKeywords = false →
         hasAnyKw (pyLower (a.title ++ [' '] ++ a.content)) otherSportKeywords = true →
        classifyRss a = none)
      ∧ (hasAnyKw (pyLower (a.title ++ [' '] ++ a.content)) sportsKeywords = false →
         hasAnyKw (pyLower (a.title ++ [' '] ++ a.content)) otherSportKeywords = false →
         (strContains (pyLower (a.title ++ [' '] ++ a.content)) "artificial intelligence".toList
          || strContains (pyLower (a.title ++ [' '] ++ a.content)) "machine learning".toList) = true →
        classifyRss a = some RssSection.ai)
      ∧ (hasAnyKw (pyLower (a.title ++ [' '] ++ a.content)) sportsKeywords = false →
         hasAnyKw (pyLower (a.title ++ [' '] ++ a.content)) otherSportKeywords = false →
         (strContains (pyLower (a.title ++ [' '] ++ a.content)) "artificial intelligence".toList
          || strContains (pyLower (a.title ++ [' '] ++ a.content)) "machine learning".toList) = false →
         (strContains (pyLower (a.title ++ [' '] ++ a.content)) "australia".toList
          || strContains (pyLower (a.title ++ [' '] ++ a.content)) "australian".toList
          || ausSources.contains (pyLower a.source)) = true →
        classifyRss a = some RssSection.australian)
      ∧ (hasAnyKw (pyLower (a.title ++ [' '] ++ a.content)) sportsKeywords = false →
         hasAnyKw (pyLower (a.title ++ [' '] ++ a.content)) otherSportKeywords = false →
         (strContains (pyLower (a.title ++ [' '] ++ a.content)) "artificial intelligence".toList
          || strContains (pyLower (a.title ++ [' '] ++ a.content)) "machine learning".toList) = false →
         (strContains (pyLower (a.title ++ [' '] ++ a.content)) "australia".toList
          || strContains (pyLower (a.title ++ [' '] ++ a.content)) "australian".toList
          || ausSources.contains (pyLower a.source)) = false →
         (strContains (pyLower (a.title ++ [' '] ++ a.content)) "trending".toList
          || strContains (pyLower (a.title ++ [' '] ++ a.content)) "viral".toList) = true →
        classifyRss a = some RssSection.trending)
      ∧ (hasAnyKw (pyLower (a.title ++ [' '] ++ a.content)) sportsKeywords = false →
         hasAnyKw (pyLower (a.title ++ [' '] ++ a.content)) otherSportKeywords = false →
         (strContains (pyLower (a.title ++ [' '] ++ a.content)) "artificial intelligence".toList
          || strContains (pyLower (a.title ++ [' '] ++ a.content)) "machine learning".toList) = false →
         (strContains (pyLower (a.title ++ [' '] ++ a.content)) "australia".toList
          || strContains (pyLower (a.title ++ [' '] ++ a.content)) "australian".toList
          || ausSources.contains (pyLower a.source)) = false →
         (strContains (pyLower (a.title ++ [' '] ++ a.content)) "trending".toList
          || strContains (pyLower (a.title ++ [' '] ++ a.content)) "viral".toList) = false →
        classifyRss a = some RssSection.international)) := by
  constructor
  · intro a b hc hs
    simp only [classifyRss]
    rw [hc, hs]
  · intro a
    refine ⟨?_, ?_, ?_, ?_, ?_, ?_⟩
    · intro h1
      simp only [classifyRss]
      rw [h1]
      simp
    · intro h1 h2
      simp only [classifyRss]
      rw [h1, h2]
      simp
    · intro h1 h2 h3
      simp only [classifyRss]
      rw [h1, h2, h3]
      simp
    · intro h1 h2 h3 h4
      simp only [classifyRss]
      rw [h1, h2, h3, h4]
      simp
    · intro h1 h2 h3 h4 h5
      simp only [classifyRss]
      rw [h1, h2, h3, h4, h5]
      simp
    · intro h1 h2 h3 h4 h5
      simp only [classifyRss]
      rw [h1, h2, h3, h4, h5]
      simp

/-- Closed witness for the classifier rules, at a sports article. -/
theorem classify_total_deterministic_ordered_witness :
    hasAnyKw (pyLower (artF1.title ++ [' '] ++ artF1.content)) sportsKeywords = true
    ∧ classifyRss artF1 = some RssSection.sports :=
  ⟨by decide, (classify_total_deterministic_ordered.2 artF1).1 (by decide)⟩

/-- C5 counterexample to the claim as stated: two articles with identical
title and content but different sources classify differently, so
classification is not a function of the lower-cased title+content text
alone. -/
theorem classify_ignores_source_counterexample :
    pyLower (artAbcLocal.title ++ [' '] ++ artAbcLocal.content)
      = pyLower (artCnnLocal.title ++ [' '] ++ artCnnLocal.content)
    ∧ classifyRss artAbcLocal = some RssSection.australian
    ∧ classifyRss artCnnLocal = some RssSection.international := by
  refine ⟨rfl, by decide, by decide⟩

/-- C6 (amended): the feed adapter's client-side filter retains exactly the
entries with a parsed publication time at or after `now - days_back`
(entries without one are dropped), while the news-API request queries the
shifted window `[now - 24h - days_back, now - 24h]`, not the same window:
an item published at `now` itself passes the feed filter but lies outside
the API query window (for any non-negative `days_back`). -/
theorem time_window_rss_exact_api_shifted (now daysBack p : Int) :
    rssKeeps now daysBack none = false
    ∧ rssKeeps now daysBack (some p) = decide (now - 24 * daysBack ≤ p)
    ∧ newsapiFromParam now daysBack = now - 24 - 24 * daysBack
    ∧ newsapiToParam now = now - 24
    ∧ newsapiKeeps now daysBack p
        = decide (now - 24 - 24 * daysBack ≤ p ∧ p ≤ now - 24)
    ∧ (0 ≤ daysBack →
        rssKeeps now daysBack (some now) = true ∧ newsapiKeeps now daysBack now = false) := by
  refine ⟨rfl, rfl, rfl, rfl, rfl, ?_⟩
  intro hd
  constructor
  · simp only [rssKeeps, rssCutoff, decide_eq_true_eq]
    omega
  · simp only [newsapiKeeps, newsapiFromParam, newsapiToParam, decide_eq_false_iff_not]
    omega

/-- Closed witness for the time-window behaviour at `now = 100`,
`days_back = 1`: an item published at 100 passes the feed filter and is
outside the API window. -/
theorem time_window_rss_exact_api_shifted_witness :
    (0 : Int) ≤ 1
    ∧ rssKeeps 100 1 (some 100) = true ∧ newsapiKeeps 100 1 100 = false :=
  ⟨by decide, (time_window_rss_exact_api_shifted 100 1 100).2.2.2.2.2 (by decide)⟩

/-- C6 counterexample to the claim as stated: the news-API request window is
not `[now - days_back, now]` — at `now = 100` (hours), `days_back = 1`, the
`to` parameter is 76, not 100, the `from` parameter is 52, not 76, and an
item published at `now` is retained by the feed filter but not by the API
query. -/
theorem time_window_api_window_counterexample :
    rssKeeps 100 1 (some 100) = true
    ∧ newsapiKeeps 100 1 100 = false
    ∧ newsapiToParam 100 ≠ 100
    ∧ newsapiFromParam 100 1 ≠ 100 - 24 * 1 := by
  refine ⟨by decide, by decide, by decide, by decide⟩

set_option maxRecDepth 4000 in
/-- C7: the renderer does not escape user-supplied text — an article title
containing markup-significant characters is interpolated verbatim into the
emitted HTML (the raw `<script>` tag appears as structural markup and no
entity-escaped form appears anywhere). -/
theorem render_title_unescaped_bug :
    strContains (renderItem artEvil) "<script>alert(1)</script>".toList = true
    ∧ strContains (renderItem artEvil) "&lt;".toList = false
    ∧ strContains (renderItem artEvil) "&amp;".toList = false := by
  refine ⟨by decide, by decide, by decide⟩

/-- C8 (amended): the recipient loop sits inside a single `try`, so sending
stops at the first failing recipient: when every send succeeds all
recipients are attempted and the loop finishes cleanly; when a recipient's
send raises, exactly the recipients up to and including it were attempted,
the remaining ones are skipped, and the failure is reported (the function
returns with the failure flag) rather than re-raised. -/
theorem send_loop_stops_at_first_failure (send : Str → Bool) :
    (∀ rs : List Str, rs.all send = true → sendLoop send rs = (rs, true))
    ∧ (∀ (pre : List Str) (r : Str) (post : List Str),
        pre.all send = true → send r = false →
        sendLoop send (pre ++ r :: post) = (pre ++ [r], false)) := by
  constructor
  · intro rs h
    induction rs with
    | nil => rfl
    | cons x xs ih =>
      rw [List.all_cons, Bool.and_eq_true] at h
      simp [sendLoop, h.1, ih h.2]
  · intro pre
    induction pre with
    | nil =>
      intro r post _ hr
      simp [sendLoop, hr]
    | cons x xs ih =>
      intro r post hall hr
      rw [List.all_cons, Bool.and_eq_true] at hall
      simp [sendLoop, hall.1, ih r post hall.2 hr]

/-- Closed witness for the send loop: with a failing first recipient, only
that recipient is attempted and the failure is reported. -/
theorem send_loop_stops_at_first_failure_witness :
    sendLoop failOnAlice ["alice@example.com".toList, "bob@example.com".toList]
      = (["alice@example.com".toList], false) := by
  have h := (send_loop_stops_at_first_failure failOnAlice).2 []
    "alice@example.com".toList ["bob@example.com".toList] (by decide) (by decide)
  simpa using h

/-- C8 counterexample to the claim as stated: a failure while sending to the
first recipient prevents the attempt to send to the second — the second
recipient is never attempted. -/
theorem send_not_per_recipient_counterexample :
    (sendLoop failOnAlice ["alice@example.com".toList, "bob@example.com".toList]).1
      = ["alice@example.com".toList]
    ∧ "bob@example.com".toList
        ∉ (sendLoop failOnAlice ["alice@example.com".toList, "bob@example.com".toList]).1 := by
  refine ⟨by decide, by decide⟩

theorem pyOrD_ne_nil (x : Option Str) (d : Str) (hd : d ≠ []) : pyOrD x d ≠ [] := by
  unfold pyOrD
  cases x with
  | none => exact hd
  | some s =>
    by_cases hs : s = []
    · simp [hs, hd]
    · simp [hs]

/-- C9 (amended): after NewsAPI normalization only the source field is
guaranteed non-empty (falling back to "Unknown" when both the source name
and id are absent); an absent title becomes the empty string, an absent
content with absent description becomes the empty string, and the url is
carried over unchanged and may be absent.  The RSS adapter passes the entry
title through, defaults content to the empty string the same way, and
substitutes the feed URL only for a missing feed title. -/
theorem adapter_placeholder_fields (a : NewsApiRaw) (ft : Option Str)
    (fu : Str) (e : RssEntry) :
    (normalizeNewsApi a).source ≠ []
    ∧ (a.sourceName = none → a.sourceId = none →
        (normalizeNewsApi a).source = "Unknown".toList)
    ∧ (a.title = none → (normalizeNewsApi a).title = [])
    ∧ (a.content = none → a.description = none → (normalizeNewsApi a).content = [])
    ∧ (normalizeNewsApi a).url = a.url
    ∧ (normalizeRss ft fu e).title = e.title
    ∧ (e.summary = none → e.description = none → (normalizeRss ft fu e).content = [])
    ∧ (ft = none → (normalizeRss ft fu e).source = fu) := by
  refine ⟨?_, ?_, ?_, ?_, rfl, rfl, ?_, ?_⟩
  · exact pyOrD_ne_nil _ _ (pyOrD_ne_nil _ _ (by decide))
  · intro h1 h2; simp [normalizeNewsApi, h1, h2, pyOrD]
  · intro h1; simp [normalizeNewsApi, h1, pyOrD]
  · intro h1 h2; simp [normalizeNewsApi, h1, h2, pyOrD]
  · intro h1 h2; simp [normalizeRss, h1, h2, pyOrD]
  · intro h1; simp [normalizeRss, h1]

/-- Closed witness for the adapter fields, at the all-absent NewsAPI object:
the source placeholder fires and the title collapses to the empty string. -/
theorem adapter_placeholder_fields_witness :
    (normalizeNewsApi rawNone).source ≠ []
    ∧ (normalizeNewsApi rawNone).source = "Unknown".toList
    ∧ (normalizeNewsApi rawNone).title = [] :=
  ⟨(adapter_placeholder_fields rawNone none [] rssEntryDemo).1,
   (adapter_placeholder_fields rawNone none [] rssEntryDemo).2.1 rfl rfl,
   (adapter_placeholder_fields rawNone none [] rssEntryDemo).2.2.1 rfl⟩

/-- C9 counterexample to the claim as stated: from a NewsAPI article with
every field absent, the produced record's title and content are the empty
string (not a non-empty placeholder) and its url is absent; only the source
receives the "Unknown" placeholder. -/
theorem adapter_empty_fields_counterexample :
    (normalizeNewsApi rawNone).title = []
    ∧ (normalizeNewsApi rawNone).content = []
    ∧ (normalizeNewsApi rawNone).url = none
    ∧ (normalizeNewsApi rawNone).source = "Unknown".toList := by
  refine ⟨rfl, rfl, rfl, by decide⟩

theorem runSection_fst (parseIso : Str → Option Nat) (oracle : Str → Option Str)
    (limit poolSize : Nat) (st : Sections) (name : Str) :
    (runSection parseIso oracle limit poolSize st name).1 = st := by
  unfold runSection
  by_cases h : getSec st name = [] <;> simp [h]

theorem summarizeStep_fst (parseIso : Str → Option Nat) (oracle : Str → Option Str)
    (limit poolSize : Nat) (acc : Sections × List Str) (name : Str) :
    (summarizeStep parseIso oracle limit poolSize acc name).1 = acc.1 := by
  unfold summarizeStep
  have h1 := runSection_fst parseIso oracle limit poolSize acc.1 name
  rcases hfe : runSection parseIso oracle limit poolSize acc.1 name with ⟨st2, o⟩
  rw [hfe] at h1
  cases o <;> simp [hfe] <;> exact h1

theorem foldl_summarizeStep_fst (parseIso : Str → Option Nat)
    (oracle : Str → Option Str) (limit poolSize : Nat) :
    ∀ (names : List Str) (acc : Sections × List Str),
    (names.foldl (summarizeStep parseIso oracle limit poolSize) acc).1 = acc.1 := by
  intro names
  induction names with
  | nil => intro acc; rfl
  | cons n ns ih =>
    intro acc
    rw [List.foldl_cons, ih]
    exact summarizeStep_fst parseIso oracle limit poolSize acc n

set_option maxHeartbeats 1000000 in
/-- C10: `summarize_news` does not mutate its input sections mapping: the
per-section loop only reads it (`sections.get`), and `sorted`/slicing build
fresh lists, so after the run the mapping is unchanged — same keys, and
every section's article list has the same elements in the same order. -/
theorem summarize_preserves_sections (parseIso : Str → Option Nat)
    (oracle : Str → Option Str) (limit poolSize : Nat) (st : Sections) :
    (summarizeNewsRun parseIso oracle limit poolSize st).1 = st
    ∧ ((summarizeNewsRun parseIso oracle limit poolSize st).1).map Prod.fst
        = st.map Prod.fst
    ∧ (∀ name : Str,
        ((summarizeNewsRun parseIso oracle limit poolSize st).1).lookup name
          = st.lookup name) := by
  have h : (summarizeNewsRun parseIso oracle limit poolSize st).1 = st := by
    simp only [summarizeNewsRun]
    exact foldl_summarizeStep_fst parseIso oracle limit poolSize SECTION_ORDER (st, [])
  exact ⟨h, by rw [h], fun name => by rw [h]⟩
